/-
Verification of the startpage repository's core algorithms:
- the tree persister `append_block_to_page` (src/startpage/utils/blocks.py),
- the RSS article filtering/ranking/selection pipeline (src/startpage/components/rss.py),
- the calendar and currency block formatters
  (src/startpage/components/calendar.py, currency.py).

The Python code is shallowly embedded: dictionaries become structures,
the Notion store becomes an explicit state (a fresh-id counter plus the
recorded list of append calls), and the async functions become pure
state-passing functions.  Machine-level details that no claim depends on
(wall-clock time arithmetic, float formatting) are represented by explicit
structured values rather than strings, as noted at each definition.
-/
import Mathlib

namespace Startpage

/-! ## Tree persister (utils/blocks.py)

A Notion block dictionary is, for the persister, a payload (all keys other
than "children", treated opaquely) plus an ordered list of child blocks.
`ContentBlock`/`BlockList` model this as a mutual inductive so that the
recursion of `append_block_to_page` is structural. -/

mutual
/-- A block dictionary: opaque payload (every key except "children")
plus the ordered "children" list. -/
inductive ContentBlock : Type where
  | mk (payload : String) (children : BlockList)
deriving DecidableEq

/-- An ordered list of child blocks. -/
inductive BlockList : Type where
  | nil
  | cons (b : ContentBlock) (bs : BlockList)
deriving DecidableEq
end

/-- One recorded call to the store's append primitive
`notion.blocks.children.append(page_id, children=..., after=...)`,
together with the identifiers the mock store echoed back for it. -/
structure AppendCall : Type where
  page_id : Nat
  children : List String
  after : Option Nat
  created_ids : List Nat
deriving DecidableEq

/-- The mock store: a fresh-identifier counter and the calls recorded so
far, in the order they were issued. -/
structure Store : Type where
  nextId : Nat
  calls : List AppendCall
deriving DecidableEq

/-- The store's append primitive: records the call and echoes one fresh
identifier per node in the batch (the response's `results[i]["id"]`). -/
def notionAppend (s : Store) (page_id : Nat) (children : List String)
    (after : Option Nat) : List Nat × Store :=
  let ids := (List.range children.length).map (s.nextId + ·)
  (ids, ⟨s.nextId + children.length, s.calls ++ [⟨page_id, children, after, ids⟩]⟩)

mutual
/-- Embedding of `append_block_to_page(notion, page_id, block, after)`:
split the block into its childless copy and its children, append the
childless copy as a single-element batch (passing `after` only when given),
take the first created id as the new parent, then recurse over the children
in order with no anchor.  The Python function has no `return` statement, so
the value component is `none`. -/
def append_block_to_page (s : Store) (page_id : Nat) (block : ContentBlock)
    (after : Option Nat) : Option Nat × Store :=
  match block with
  | .mk payload children =>
    let r := notionAppend s page_id [payload] after
    let parent_id := r.1.headD 0
    (none, appendChildren r.2 parent_id children)

/-- The `for child_block in children_blocks:` loop of
`append_block_to_page`: each child is appended recursively under
`parent_id` with `after=None`. -/
def appendChildren (s : Store) (parent_id : Nat) (children : BlockList) :
    Store :=
  match children with
  | .nil => s
  | .cons c rest =>
    appendChildren (append_block_to_page s parent_id c none).2 parent_id rest
end

mutual
/-- Total node count of a block tree (the node itself plus all
descendants, recursively). -/
def blockSize : ContentBlock → Nat
  | .mk _ children => 1 + blockListSize children

/-- Total node count of a list of block trees. -/
def blockListSize : BlockList → Nat
  | .nil => 0
  | .cons b bs => blockSize b + blockListSize bs
end

mutual
/-- The call trace that §4.3 of the spec prescribes for persisting `b`
under `container` with anchor `after`, when the store's next fresh id is
`n`: first one single-element append of the childless copy under
`container` (receiving id `n`), then the children's traces in order, each
under the new id `n` and with no anchor — pre-order, depth-first,
left-to-right.  Returns the trace and the next unused id. -/
def specTrace (b : ContentBlock) (container : Nat) (after : Option Nat)
    (n : Nat) : List AppendCall × Nat :=
  match b with
  | .mk payload children =>
    let rest := specTraceList children n (n + 1)
    (⟨container, [payload], after, [n]⟩ :: rest.1, rest.2)

/-- Spec-side trace of persisting a list of sibling blocks, in order,
under `parent`, with no anchor. -/
def specTraceList (bs : BlockList) (parent : Nat) (n : Nat) :
    List AppendCall × Nat :=
  match bs with
  | .nil => ([], n)
  | .cons b rest =>
    let t := specTrace b parent none n
    let ts := specTraceList rest parent t.2
    (t.1 ++ ts.1, ts.2)
end

/-! ## RSS selection pipeline (components/rss.py)

Timezone-aware datetimes are modelled as a day index plus the second of
the day, compared lexicographically (Python datetimes compare totally);
`now.replace(hour=0, minute=0, second=0, microsecond=0)` becomes zeroing
the second-of-day component. -/

/-- A datetime: day index and second of the day, ordered lexicographically. -/
structure Dt : Type where
  day : Nat
  tod : Nat
deriving DecidableEq

instance : LT Dt := ⟨fun a b => a.day < b.day ∨ (a.day = b.day ∧ a.tod < b.tod)⟩
instance : LE Dt := ⟨fun a b => a.day < b.day ∨ (a.day = b.day ∧ a.tod ≤ b.tod)⟩

instance (a b : Dt) : Decidable (a < b) :=
  inferInstanceAs (Decidable (a.day < b.day ∨ (a.day = b.day ∧ a.tod < b.tod)))

instance (a b : Dt) : Decidable (a ≤ b) :=
  inferInstanceAs (Decidable (a.day < b.day ∨ (a.day = b.day ∧ a.tod ≤ b.tod)))

/-- Embedding of `now.replace(hour=0, minute=0, second=0, microsecond=0)`
(module-level `start_of_the_day`). -/
def startOfDay (now : Dt) : Dt := ⟨now.day, 0⟩

/-- The `Feed` dataclass. -/
structure Feed : Type where
  name : String
  url : String
  priority : Int
deriving DecidableEq

/-- The `Article` dataclass. -/
structure Article : Type where
  feed : Feed
  title : String
  description : String
  full_text : String
  link : String
  published : Dt
  authors : List String
  tags : List String
  priority : Int
deriving DecidableEq

/-- The `published_parsed` field's value when present and truthy: either a
genuine `time.struct_time` (carrying the datetime that
`tz.localize(datetime.fromtimestamp(mktime(...)))` evaluates to — the
wall-clock arithmetic itself is not modelled) or some other object
(possibly with a `tm_year` attribute but failing `isinstance(_,
struct_time)`). -/
inductive PublishedParsed : Type where
  | structTime (t : Dt)
  | notStructTime
deriving DecidableEq

/-- A feedparser entry's `tags` list element; `term` is `none` when the
`"term"` key is absent or `None` (both of which Python maps to `""` via
`str(tag.get("term", "") or "")`). -/
structure TagDict : Type where
  term : Option String
deriving DecidableEq

/-- A feedparser entry dictionary, restricted to the keys rss.py reads.
`none` models an absent key (or, for `published_parsed`/`tags`/`authors`,
a falsy value such as `None`). `content` is the list of content dicts,
each reduced to its optional `"value"` string. -/
structure Entry : Type where
  published_parsed : Option PublishedParsed
  tags : Option (List TagDict)
  title : Option String
  content : Option (List (Option String))
  summary : Option String
  link : Option String
  authors : Option (List (Option String))
deriving DecidableEq

/-- Embedding of `get_published_datetime(entry)`: return the parsed
struct_time when present, otherwise the module-level `now` snapshot
(passed explicitly here). -/
def get_published_datetime (now : Dt) (entry : Entry) : Dt :=
  match entry.published_parsed with
  | some (.structTime t) => t
  | _ => now

/-- Python's `str.lower()` (ASCII case mapping, which covers every tag
the repository configures), written as a character-list map so that it
evaluates by kernel reduction. -/
def strLower (s : String) : String :=
  ⟨s.data.map Char.toLower⟩

/-- The lowercased tag set of an entry:
`set(str(tag.get("term", "") or "").lower() for tag in (entry.get("tags") or []))`,
realised as a duplicate-free list. -/
def entryTags (entry : Entry) : List String :=
  (((entry.tags.getD []).map fun t => strLower (t.term.getD ""))).eraseDups

/-- Truthiness of `banned_tags.intersection(tags)`. -/
def tagsIntersect (banned_tags : List String) (tags : List String) : Bool :=
  tags.any fun t => banned_tags.contains t

/-- The `full_text` computation:
`content[0].get("value", entry.get("summary", "")) if content else entry.get("summary", "")`
where `content = entry.get("content", [{}])`. -/
def entryFullText (entry : Entry) : String :=
  match entry.content with
  | none => entry.summary.getD ""
  | some [] => entry.summary.getD ""
  | some (c :: _) => c.getD (entry.summary.getD "")

/-- The loop body of `fetch_articles_from_feeds` for one entry of one
feed: apply the recency filter (`continue` when published before the start
of the day), then the banned-tag filter, then build the `Article`. -/
def processEntry (now : Dt) (banned_tags : List String) (feed : Feed)
    (entry : Entry) : Option Article :=
  let published := get_published_datetime now entry
  if published < startOfDay now then none
  else
    let tags := entryTags entry
    if tagsIntersect banned_tags tags then none
    else some
      { feed := feed
        title := entry.title.getD ""
        description := entry.summary.getD ""
        full_text := entryFullText entry
        link := entry.link.getD ""
        published := published
        authors := (entry.authors.getD []).map (fun a => a.getD "")
        tags := tags
        priority := feed.priority }

/-- Embedding of `fetch_articles_from_feeds(feeds, banned_tags)`.  The
network fetch `feedparser.parse(feed.url).entries` is an external
collaborator, passed as the function `parse`. -/
def fetch_articles_from_feeds (parse : Feed → List Entry) (now : Dt)
    (feeds : List Feed) (banned_tags : List String) : List Article :=
  feeds.flatMap fun feed => (parse feed).filterMap (processEntry now banned_tags feed)

/-- The sort key comparison for
`articles.sort(key=lambda x: (x.priority, x.published))`: lexicographic on
(priority, published). -/
def keyLE (a b : Article) : Prop :=
  a.priority < b.priority ∨ (a.priority = b.priority ∧ a.published ≤ b.published)

instance (a b : Article) : Decidable (keyLE a b) :=
  inferInstanceAs (Decidable (_ ∨ _))

/-- Embedding of `articles.sort(key=lambda x: (x.priority, x.published))`
— Python's stable sort.  A stable sort by a total transitive key comparison is
extensionally unique, so it is modelled by the stable
`List.insertionSort`. -/
def rankArticles (articles : List Article) : List Article :=
  articles.insertionSort keyLE

/-- The per-feed dict read `feed_count.get(feed_name, 0)`. -/
def dictGet (d : List (String × Nat)) (k : String) : Nat :=
  match d with
  | [] => 0
  | (k', v) :: rest => if k' = k then v else dictGet rest k

/-- The dict write `feed_count[feed_name] = v`. -/
def dictSet (d : List (String × Nat)) (k : String) (v : Nat) :
    List (String × Nat) :=
  match d with
  | [] => [(k, v)]
  | (k', v') :: rest =>
    if k' = k then (k, v) :: rest else (k', v') :: dictSet rest k v

/-- The selection loop of `fetch_feed`: walk the ranked articles, admit an
article when its feed's counter is below 2, and `break` when
`len(selected_articles) == max_articles` (checked only after an
admission). -/
def selectLoop (max_articles : Int) :
    List Article → List Article → List (String × Nat) → List Article
  | [], selected, _ => selected
  | article :: rest, selected, feed_count =>
    let feed_name := article.feed.name
    if dictGet feed_count feed_name < 2 then
      let selected' := selected ++ [article]
      let feed_count' := dictSet feed_count feed_name (dictGet feed_count feed_name + 1)
      if (selected'.length : Int) = max_articles then selected'
      else selectLoop max_articles rest selected' feed_count'
    else selectLoop max_articles rest selected feed_count

/-- The articles `fetch_feed` selects: rank, then run the selection loop
with empty accumulators. -/
def selected_articles (articles : List Article) (max_articles : Int) :
    List Article :=
  selectLoop max_articles (rankArticles articles) [] []

/-- A rendered Notion block as built by the rss and calendar components:
a `heading_2`, or a `bulleted_list_item` whose text optionally carries a
link. -/
inductive NBlock : Type where
  | heading2 (text : String)
  | bullet (text : String) (link : Option String)
deriving DecidableEq

/-- The bullet text `f"[{article.feed.name}] {article.title}"`. -/
def articleText (article : Article) : String :=
  "[" ++ article.feed.name ++ "] " ++ article.title

/-- Embedding of `fetch_feed(header, feeds, banned_tags, max_articles)`:
fetch and filter the article pool, rank it, run the selection loop, and
render a `heading_2` followed by one linked bullet per selected article. -/
def fetch_feed (parse : Feed → List Entry) (now : Dt) (header : String)
    (feeds : List Feed) (banned_tags : List String) (max_articles : Int) :
    List NBlock :=
  let articles := fetch_articles_from_feeds parse now feeds banned_tags
  let sel := selected_articles articles max_articles
  NBlock.heading2 header ::
    sel.map fun article => NBlock.bullet (articleText article) (some article.link)

/-! ## Calendar component (components/calendar.py) -/

/-- A parsed calendar event as returned by `parse_event` (the CalDAV
fetch and vobject parsing are external collaborators).  `parse_event`
substitutes the day's start/end for non-datetime (all-day) values, so
`start` and `end_time` are always datetimes here. -/
structure CalEvent : Type where
  calendar : String
  title : String
  start : Dt
  end_time : Dt
deriving DecidableEq

/-- Two-digit zero padding as in `strftime` fields. -/
def pad2 (n : Nat) : String :=
  if n < 10 then "0" ++ toString n else toString n

/-- Embedding of `start_time.strftime("%H:%M")` on a second-of-day
value. -/
def fmtHM (tod : Nat) : String :=
  pad2 (tod / 3600) ++ ":" ++ pad2 (tod % 3600 / 60)

/-- The per-event item text: `f"{title} at {H:M} (from {calendar})"` when
the event's start differs from the day's start, else
`f"{title} all day (from {calendar})"`. -/
def eventText (dayStart : Dt) (e : CalEvent) : String :=
  if e.start ≠ dayStart then
    e.title ++ " at " ++ fmtHM e.start.tod ++ " (from " ++ e.calendar ++ ")"
  else
    e.title ++ " all day (from " ++ e.calendar ++ ")"

/-- Embedding of `get_icloud_calendar_events(text, ...)` from the point
where `all_events` has been collected: sort by start time (Python's
stable `list.sort`), then emit the heading followed either by the single
"No events today." item (when there are no events) or by one item per
event. -/
def get_icloud_calendar_events (text : String) (now : Dt)
    (all_events : List CalEvent) : List NBlock :=
  let start := startOfDay now
  let sorted := all_events.insertionSort fun a b => a.start ≤ b.start
  let blocks := [NBlock.heading2 text]
  match sorted with
  | [] => blocks ++ [NBlock.bullet "No events today." none]
  | evs => blocks ++ evs.map fun e => NBlock.bullet (eventText start e) none

/-! ## Currency component (components/currency.py) -/

/-- A block built by `get_currency_rates`.  The two bulleted item shapes
are kept structured because the available-rate text interpolates a
float-formatted number (`f"{1 / rates[target]:,.2f}"`), whose binary
floating-point rendering is not modelled: `rateItem target r base`
stands for the item `f"1 {target.upper()} = {format r} {base.upper()}"`
with `r = 1 / rates[target]` as an exact rational (only ever built from a
nonzero table rate), and `notAvailable target` stands for the item
`f"Rate for {target.upper()} not available"`. -/
inductive CurrencyBlock : Type where
  | heading (text : String)
  | rateItem (target : String) (inverseRate : Rat) (base : String)
  | notAvailable (target : String)
deriving DecidableEq

/-- The loop body of `get_currency_rates` for one target currency:
lowercase the target, then append either the rate item (when the target
is a key of the rate table) or the "not available" item.  `base` is
already lowercased.  When the looked-up rate is 0, Python's
`1 / rates[target]` raises `ZeroDivisionError`; that raise is modelled as
`Except.error ()`. -/
def currencyStep (base : String) (rates : List (String × Rat))
    (blocks : List CurrencyBlock) (target : String) :
    Except Unit (List CurrencyBlock) :=
  let target := strLower target
  match rates.lookup target with
  | some r =>
    if r = 0 then Except.error ()
    else Except.ok (blocks ++ [CurrencyBlock.rateItem target (1 / r) base])
  | none => Except.ok (blocks ++ [CurrencyBlock.notAvailable target])

/-- Embedding of `get_currency_rates(text, base, targets)` from the point
where the rate table `rates = data[base]` has been fetched (the HTTP call
is an external collaborator): emit the heading, then walk `targets` in
order appending one item per target via `currencyStep`.  A raised
`ZeroDivisionError` propagates out of the loop, aborting the whole call:
`Except.error ()`. -/
def get_currency_rates (text : String) (base : String)
    (targets : List String) (rates : List (String × Rat)) :
    Except Unit (List CurrencyBlock) :=
  targets.foldlM (currencyStep (strLower base) rates)
    [CurrencyBlock.heading text]

/-! ## Auxiliary definitions used by the claim statements -/

/-- Whether an entry's `published_parsed` field is absent, falsy, or not a
parseable `struct_time` — exactly the situations in which
`get_published_datetime` falls through to `return now`. -/
def isMalformedPublished : Option PublishedParsed → Bool
  | some (.structTime _) => false
  | _ => true

/-- The outcome `get_currency_rates` produces for one target currency:
the rate item when the lowercased target is in the rate table with a
nonzero rate, the "Rate for X not available" item when it is absent, and
the `ZeroDivisionError` (`Except.error ()`) when its rate is 0. -/
def currencyItem (base : String) (rates : List (String × Rat))
    (target : String) : Except Unit CurrencyBlock :=
  match rates.lookup (strLower target) with
  | some r =>
    if r = 0 then Except.error ()
    else Except.ok
      (CurrencyBlock.rateItem (strLower target) (1 / r) (strLower base))
  | none => Except.ok (CurrencyBlock.notAvailable (strLower target))

/-! ### Concrete fixtures for counterexamples and witnesses -/

/-- A priority-1 feed. -/
def feedA : Feed := ⟨"A", "https://a.example/feed", 1⟩

/-- A priority-2 feed. -/
def feedB : Feed := ⟨"B", "https://b.example/feed", 2⟩

/-- An article from `f` published at second `tod` of day 0. -/
def mkArticle (f : Feed) (tod : Nat) : Article :=
  ⟨f, "t" ++ toString tod, "", "", "", ⟨0, tod⟩, [], [], f.priority⟩

/-- An entry with no parseable publication date and the single tag term
"Sponsored". -/
def entrySponsored : Entry :=
  ⟨none, some [⟨some "Sponsored"⟩], some "T", none, none, none, none⟩

/-- An entry with no publication field and no tags. -/
def entryNoDate : Entry :=
  ⟨none, none, some "T", none, none, none, none⟩

/-- The article `processEntry` produces from `entrySponsored` for `feedA`
when the run's `now` is day 5, second 100. -/
def articleSponsored : Article :=
  ⟨feedA, "T", "", "", "", ⟨5, 100⟩, [], ["sponsored"], 1⟩

/-- A three-level block tree: a root with a leaf child and a child that
itself has a leaf child. -/
def sampleTree : ContentBlock :=
  .mk "root" (.cons (.mk "c1" .nil)
    (.cons (.mk "c2" (.cons (.mk "g1" .nil) .nil)) .nil))

open List

/-! ## Theorems

### The persister's call trace -/

mutual
/-- Running the embedded `append_block_to_page` from any store state
produces exactly the spec-prescribed trace appended to the prior calls,
advances the id counter accordingly, and returns `none`. -/
theorem append_block_to_page_trace :
    ∀ (b : ContentBlock) (s : Store) (pid : Nat) (after : Option Nat),
    append_block_to_page s pid b after =
      (none, ⟨(specTrace b pid after s.nextId).2,
              s.calls ++ (specTrace b pid after s.nextId).1⟩)
  | .mk payload children, s, pid, after => by
    have ih := appendChildren_trace children
    have h1 : List.range 1 = [0] := rfl
    simp [append_block_to_page, specTrace, notionAppend, ih, h1]

/-- The children loop produces exactly the spec-prescribed sibling trace. -/
theorem appendChildren_trace :
    ∀ (bs : BlockList) (s : Store) (pid : Nat),
    appendChildren s pid bs =
      ⟨(specTraceList bs pid s.nextId).2,
       s.calls ++ (specTraceList bs pid s.nextId).1⟩
  | .nil, s, pid => by simp [appendChildren, specTraceList]
  | .cons b rest, s, pid => by
    have ih1 := append_block_to_page_trace b
    have ih2 := appendChildren_trace rest
    simp [appendChildren, specTraceList, ih1, ih2]
end

mutual
/-- The spec trace of one block has one call per node of the tree. -/
theorem specTrace_length :
    ∀ (b : ContentBlock) (pid : Nat) (after : Option Nat) (n : Nat),
    (specTrace b pid after n).1.length = blockSize b
  | .mk payload children, pid, after, n => by
    have ih := specTraceList_length children
    simp [specTrace, blockSize, ih]
    omega

/-- The spec trace of a sibling list has one call per node. -/
theorem specTraceList_length :
    ∀ (bs : BlockList) (pid n : Nat),
    (specTraceList bs pid n).1.length = blockListSize bs
  | .nil, pid, n => by simp [specTraceList, blockListSize]
  | .cons b rest, pid, n => by
    have ih1 := specTrace_length b
    have ih2 := specTraceList_length rest
    simp [specTraceList, blockListSize, ih1, ih2]
end

mutual
/-- Every call of a spec trace carries a single-element batch. -/
theorem specTrace_batch :
    ∀ (b : ContentBlock) (pid : Nat) (after : Option Nat) (n : Nat),
    ∀ c ∈ (specTrace b pid after n).1, c.children.length = 1
  | .mk payload children, pid, after, n => by
    have ih := specTraceList_batch children
    intro c hc
    simp only [specTrace, List.mem_cons] at hc
    rcases hc with h | h
    · subst h; rfl
    · exact ih _ _ c h

/-- Every call of a sibling-list spec trace carries a single-element
batch. -/
theorem specTraceList_batch :
    ∀ (bs : BlockList) (pid n : Nat),
    ∀ c ∈ (specTraceList bs pid n).1, c.children.length = 1
  | .nil, pid, n => by simp [specTraceList]
  | .cons b rest, pid, n => by
    have ih1 := specTrace_batch b
    have ih2 := specTraceList_batch rest
    intro c hc
    simp only [specTraceList, List.mem_append] at hc
    rcases hc with h | h
    · exact ih1 _ _ _ c h
    · exact ih2 _ _ c h
end

/-- C3: for every block tree, container id, anchor and initial fresh id,
running `append_block_to_page` against a recording store that echoes
fresh identifiers produces exactly the call sequence prescribed by the
spec (`specTrace`): the calls are issued in pre-order depth-first
left-to-right sequence, each child's call is issued under its own
parent's freshly returned identifier, the `after` anchor appears only on
the top-level call (children are appended with no anchor), and the per
level left-to-right order and total node count of the input tree are
reproduced. -/
theorem persist_calls_eq_specTrace :
    ∀ (b : ContentBlock) (pid n0 : Nat) (after : Option Nat),
    ((append_block_to_page ⟨n0, []⟩ pid b after).2).calls =
      (specTrace b pid after n0).1 := by
  intro b pid n0 after
  rw [append_block_to_page_trace]
  simp

/-- C4: persisting a tree with N total nodes (root plus all descendants)
issues exactly N calls to the store's append primitive, each with a
single-element batch. -/
theorem persist_call_count :
    ∀ (b : ContentBlock) (pid n0 : Nat) (after : Option Nat),
    ((append_block_to_page ⟨n0, []⟩ pid b after).2).calls.length = blockSize b ∧
    ∀ c ∈ ((append_block_to_page ⟨n0, []⟩ pid b after).2).calls,
      c.children.length = 1 := by
  intro b pid n0 after
  rw [append_block_to_page_trace]
  refine ⟨by simp [specTrace_length], ?_⟩
  simpa using specTrace_batch b pid after n0

/-- C2 counterexample: persisting a one-node block from the store state
with next fresh id 1 creates a node to which the store assigns id 1, but
`append_block_to_page` returns `None` (the Python function has no
`return` statement), not that identifier. -/
theorem persist_return_counterexample :
    (append_block_to_page ⟨1, []⟩ 0 (ContentBlock.mk "heading" BlockList.nil)
        none).1 ≠ some 1 ∧
    (append_block_to_page ⟨1, []⟩ 0 (ContentBlock.mk "heading" BlockList.nil)
        none).1 = none ∧
    ((append_block_to_page ⟨1, []⟩ 0 (ContentBlock.mk "heading" BlockList.nil)
        none).2).calls.map AppendCall.created_ids = [[1]] := by
  decide

/-- C2 amended: `append_block_to_page` persists the whole tree (one store
call per node) but returns `None`; the store-assigned identifier of the
newly created top-level node is used internally as the container for the
child calls and is not returned to the caller. -/
theorem persist_returns_none :
    ∀ (s : Store) (pid : Nat) (b : ContentBlock) (after : Option Nat),
    (append_block_to_page s pid b after).1 = none ∧
    ((append_block_to_page s pid b after).2).calls.length =
      s.calls.length + blockSize b := by
  intro s pid b after
  rw [append_block_to_page_trace]
  simp [specTrace_length]

/-! ### RSS selection: helper lemmas -/

theorem dt_le_iff (a b : Dt) :
    a ≤ b ↔ (a.day < b.day ∨ (a.day = b.day ∧ a.tod ≤ b.tod)) := Iff.rfl

theorem dt_lt_iff (a b : Dt) :
    a < b ↔ (a.day < b.day ∨ (a.day = b.day ∧ a.tod < b.tod)) := Iff.rfl

instance : IsTotal Article keyLE :=
  ⟨by intro a b; simp only [keyLE, dt_le_iff]; omega⟩

instance : IsTrans Article keyLE :=
  ⟨by intro a b c; simp only [keyLE, dt_le_iff]; omega⟩

/-- What a successfully processed entry guarantees about the produced
article: the copied priority equals the feed's, the tags are the
lowercased entry tags, and the banned-tag intersection was empty. -/
theorem processEntry_some_inv :
    ∀ (now : Dt) (banned : List String) (f : Feed) (e : Entry) (a : Article),
    processEntry now banned f e = some a →
      a.priority = a.feed.priority ∧ a.tags = entryTags e ∧
      tagsIntersect banned a.tags = false := by
  intro now banned f e a h
  simp only [processEntry] at h
  split at h
  · exact absurd h (by simp)
  · split at h
    · exact absurd h (by simp)
    · rename_i hcond
      simp only [Option.some.injEq] at h
      subst h
      refine ⟨rfl, rfl, ?_⟩
      simpa using hcond

/-- Every article in the fetched pool has its copied priority equal to
its feed's priority, and none of its (lowercased) tags is in the banned
set. -/
theorem fetch_pool_inv :
    ∀ (parse : Feed → List Entry) (now : Dt) (feeds : List Feed)
      (banned : List String) (a : Article),
    a ∈ fetch_articles_from_feeds parse now feeds banned →
      a.priority = a.feed.priority ∧
      ∀ t ∈ a.tags, banned.contains t = false := by
  intro parse now feeds banned a ha
  simp only [fetch_articles_from_feeds, List.mem_flatMap, List.mem_filterMap] at ha
  obtain ⟨f, -, e, -, he⟩ := ha
  obtain ⟨h1, -, h3⟩ := processEntry_some_inv now banned f e a he
  refine ⟨h1, ?_⟩
  intro t ht
  have := (List.any_eq_false.mp h3) t ht
  simpa using this

/-- The selection loop returns its accumulator followed by a subsequence
of its input. -/
theorem selectLoop_sublist :
    ∀ (max : Int) (l sel : List Article) (fc : List (String × Nat)),
    ∃ extra, selectLoop max l sel fc = sel ++ extra ∧ extra <+ l := by
  intro max l
  induction l with
  | nil => intro sel fc; exact ⟨[], by simp [selectLoop], List.nil_sublist _⟩
  | cons a rest ih =>
    intro sel fc
    by_cases h1 : dictGet fc a.feed.name < 2
    · by_cases h2 : ((sel.length : Int) + 1 = max)
      · refine ⟨[a], ?_, (List.nil_sublist rest).cons₂ a⟩
        simp [selectLoop, h1, h2]
      · obtain ⟨e, he, hs⟩ :=
          ih (sel ++ [a]) (dictSet fc a.feed.name (dictGet fc a.feed.name + 1))
        refine ⟨a :: e, ?_, hs.cons₂ a⟩
        simp [selectLoop, h1, h2, he]
    · obtain ⟨e, he, hs⟩ := ih sel fc
      exact ⟨e, by simp [selectLoop, h1, he], hs.cons a⟩

/-- The selected articles form a subsequence of the ranked pool. -/
theorem selected_sublist_rank :
    ∀ (articles : List Article) (max : Int),
    selected_articles articles max <+ rankArticles articles := by
  intro articles max
  obtain ⟨e, he, hs⟩ := selectLoop_sublist max (rankArticles articles) [] []
  simpa [selected_articles, he]

/-- Witness for `persist_call_count`'s per-call clause at a concrete
tree and call. -/
theorem persist_call_count_witness :
    ((append_block_to_page ⟨1, []⟩ 0 sampleTree none).2).calls.length =
      blockSize sampleTree ∧
    (AppendCall.mk 0 ["root"] none [1]).children.length = 1 :=
  ⟨(persist_call_count sampleTree 0 1 none).1,
   (persist_call_count sampleTree 0 1 none).2 ⟨0, ["root"], none, [1]⟩
     (by decide)⟩

/-- C5: in `fetch_feed`'s selected output, for every pair (a, b) with a
before b, a's feed priority is at most b's, and when the feed priorities
are equal a's publication timestamp is at most b's. -/
theorem selected_priority_ordered :
    ∀ (parse : Feed → List Entry) (now : Dt) (feeds : List Feed)
      (banned : List String) (max : Int),
    List.Pairwise
      (fun a b => a.feed.priority ≤ b.feed.priority ∧
        (a.feed.priority = b.feed.priority → a.published ≤ b.published))
      (selected_articles (fetch_articles_from_feeds parse now feeds banned)
        max) := by
  intro parse now feeds banned max
  have hsorted :
      (rankArticles (fetch_articles_from_feeds parse now feeds banned)).Pairwise
        keyLE := List.sorted_insertionSort keyLE _
  have hs := selected_sublist_rank (fetch_articles_from_feeds parse now feeds banned) max
  have hpw := List.Pairwise.sublist hs hsorted
  refine hpw.imp_of_mem ?_
  intro a b ha hb hk
  have hma : a ∈ fetch_articles_from_feeds parse now feeds banned := by
    have h1 := hs.subset ha
    rw [rankArticles] at h1
    exact (List.mem_insertionSort keyLE).mp h1
  have hmb : b ∈ fetch_articles_from_feeds parse now feeds banned := by
    have h1 := hs.subset hb
    rw [rankArticles] at h1
    exact (List.mem_insertionSort keyLE).mp h1
  have hpa := (fetch_pool_inv parse now feeds banned a hma).1
  have hpb := (fetch_pool_inv parse now feeds banned b hmb).1
  rcases hk with h | ⟨heq, hle⟩
  · exact ⟨by omega, fun hfe => absurd h (by omega)⟩
  · exact ⟨by omega, fun _ => hle⟩

/-- C7: articles tied on both feed priority and publication timestamp
keep their pool order in the selected output: the selected articles with
any fixed (priority, timestamp) key form a subsequence of the pool's
articles with that key, in pool order (the ranking sort is stable and
ties are never broken by other fields). -/
theorem selected_tie_stable :
    ∀ (parse : Feed → List Entry) (now : Dt) (feeds : List Feed)
      (banned : List String) (max : Int) (p : Int) (t : Dt),
    ((selected_articles (fetch_articles_from_feeds parse now feeds banned)
          max).filter
        fun a => decide (a.feed.priority = p ∧ a.published = t)) <+
      ((fetch_articles_from_feeds parse now feeds banned).filter
        fun a => decide (a.feed.priority = p ∧ a.published = t)) := by
  intro parse now feeds banned max p t
  set pool := fetch_articles_from_feeds parse now feeds banned with hpooldef
  set P : Article → Bool :=
    (fun a => decide (a.feed.priority = p ∧ a.published = t)) with hP
  have hcsub : pool.filter P <+ pool := List.filter_sublist pool
  have hcpw : (pool.filter P).Pairwise keyLE := by
    apply List.pairwise_of_forall_mem_list
    intro a ha b hb
    have ha' := List.mem_filter.mp ha
    have hb' := List.mem_filter.mp hb
    have hpa := (fetch_pool_inv parse now feeds banned a ha'.1).1
    have hpb := (fetch_pool_inv parse now feeds banned b hb'.1).1
    have hfa : a.feed.priority = p ∧ a.published = t := by
      simpa [hP] using ha'.2
    have hfb : b.feed.priority = p ∧ b.published = t := by
      simpa [hP] using hb'.2
    right
    refine ⟨by omega, ?_⟩
    rw [hfa.2, hfb.2, dt_le_iff]
    omega
  have hc2 : pool.filter P <+ rankArticles pool := by
    rw [rankArticles]
    exact List.sublist_insertionSort hcpw hcsub
  have hpermf : (rankArticles pool).filter P ~ pool.filter P := by
    have hperm : rankArticles pool ~ pool := by
      rw [rankArticles]; exact List.perm_insertionSort keyLE pool
    exact hperm.filter P
  have hc3 : pool.filter P <+ (rankArticles pool).filter P := by
    have h := hc2.filter P
    rwa [List.filter_eq_self.mpr
      (fun a ha => (List.mem_filter.mp ha).2)] at h
  have heq : (rankArticles pool).filter P = pool.filter P :=
    (hc3.eq_of_length hpermf.length_eq.symm).symm
  have hsel := (selected_sublist_rank pool max).filter P
  rwa [heq] at hsel

/-- C6 counterexample: with `banned_tags = {"SPONSORED"}` (not
lowercased), the entry whose only tag term is "Sponsored" is kept by the
tag filter — the pool contains its article, whose tag "sponsored" equals
the banned tag "SPONSORED" up to case — so the tag comparison is not
case-insensitive on the banned-tag side. -/
theorem tag_filter_case_counterexample :
    (fetch_articles_from_feeds (fun _ => [entrySponsored]) ⟨5, 100⟩ [feedA]
        ["SPONSORED"]).map Article.tags = [["sponsored"]] ∧
    strLower "sponsored" = strLower "SPONSORED" := by decide

/-- C6 amended: no article kept by the tag filter in
`fetch_articles_from_feeds` has any of its (lowercased) tags literally in
`banned_tags` — the comparison lowercases only the article's tags, while
the banned set is expected to be lowercase already — and an entry with an
empty tag set is never excluded by the tag filter. -/
theorem tag_filter_exclusion :
    ∀ (parse : Feed → List Entry) (now : Dt) (feeds : List Feed)
      (banned : List String) (e : Entry),
    (∀ a ∈ fetch_articles_from_feeds parse now feeds banned,
      ∀ t ∈ a.tags, banned.contains t = false) ∧
    (e.tags.getD [] = [] → tagsIntersect banned (entryTags e) = false) := by
  intro parse now feeds banned e
  constructor
  · intro a ha t ht
    exact (fetch_pool_inv parse now feeds banned a ha).2 t ht
  · intro h
    have h0 : entryTags e = [] := by simp only [entryTags, h]; rfl
    rw [h0]
    rfl

/-- Witness for `tag_filter_exclusion` at concrete inputs: the kept
article `articleSponsored`'s tag is not in the banned set
`["politics"]`, and the tagless `entryNoDate` passes the tag filter. -/
theorem tag_filter_exclusion_witness :
    (["politics"].contains "sponsored" = false) ∧
    tagsIntersect ["politics"] (entryTags entryNoDate) = false := by
  constructor
  · exact (tag_filter_exclusion (fun _ => [entrySponsored]) ⟨5, 100⟩ [feedA]
      ["politics"] entryNoDate).1 articleSponsored (by decide) "sponsored"
      (by decide)
  · exact (tag_filter_exclusion (fun _ => [entrySponsored]) ⟨5, 100⟩ [feedA]
      ["politics"] entryNoDate).2 (by decide)

/-- C8: an entry whose publication field is absent or not a parseable
time structure gets the run's current-time snapshot from
`get_published_datetime` (no error path exists), and that snapshot is
never strictly before the start of the current day, so the entry is not
excluded by the recency filter `published < start_of_the_day` in
`fetch_articles_from_feeds`. -/
theorem malformed_published_fallback :
    ∀ (now : Dt) (e : Entry),
    isMalformedPublished e.published_parsed = true →
      get_published_datetime now e = now ∧
      ¬(get_published_datetime now e < startOfDay now) := by
  intro now e h
  have hnow : get_published_datetime now e = now := by
    unfold get_published_datetime
    rcases hp : e.published_parsed with - | pv
    · rfl
    · cases pv with
      | structTime t => rw [hp] at h; simp [isMalformedPublished] at h
      | notStructTime => rfl
  refine ⟨hnow, ?_⟩
  rw [hnow, dt_lt_iff]
  simp [startOfDay]

/-- Witness for `malformed_published_fallback`: the dateless entry at a
concrete run time. -/
theorem malformed_published_fallback_witness :
    get_published_datetime ⟨7, 123⟩ entryNoDate = ⟨7, 123⟩ ∧
    ¬(get_published_datetime ⟨7, 123⟩ entryNoDate < startOfDay ⟨7, 123⟩) :=
  malformed_published_fallback ⟨7, 123⟩ entryNoDate (by decide)

/-- C9 counterexample: `fetch_feed` with zero selected articles returns
only the heading — a one-block sequence, not the claimed heading plus one
informational item. -/
theorem no_data_counterexample :
    fetch_feed (fun _ => []) ⟨5, 0⟩ "Tech News" [feedA] [] 5 =
      [NBlock.heading2 "Tech News"] ∧
    (fetch_feed (fun _ => []) ⟨5, 0⟩ "Tech News" [feedA] [] 5).length = 1 := by
  decide

/-- C9 amended: `get_icloud_calendar_events` with zero events returns
exactly the heading plus the "No events today." item (two blocks), but
`fetch_feed` with zero selected articles returns only the heading (one
block, with no informational item). -/
theorem no_data_blocks :
    ∀ (text : String) (now : Dt) (parse : Feed → List Entry) (now' : Dt)
      (header : String) (feeds : List Feed) (banned : List String)
      (max : Int),
    get_icloud_calendar_events text now [] =
      [NBlock.heading2 text, NBlock.bullet "No events today." none] ∧
    (selected_articles (fetch_articles_from_feeds parse now' feeds banned)
        max = [] →
      fetch_feed parse now' header feeds banned max =
        [NBlock.heading2 header]) := by
  intro text now parse now' header feeds banned max
  constructor
  · simp [get_icloud_calendar_events]
  · intro h
    simp [fetch_feed, h]

/-- Witness for `no_data_blocks` at concrete inputs. -/
theorem no_data_blocks_witness :
    get_icloud_calendar_events "Today's Events" ⟨3, 42⟩ [] =
      [NBlock.heading2 "Today's Events",
       NBlock.bullet "No events today." none] ∧
    fetch_feed (fun _ => []) ⟨5, 0⟩ "News" [feedA] [] 5 =
      [NBlock.heading2 "News"] :=
  ⟨(no_data_blocks "Today's Events" ⟨3, 42⟩ (fun _ => []) ⟨5, 0⟩ "News" [feedA]
      [] 5).1,
   (no_data_blocks "Today's Events" ⟨3, 42⟩ (fun _ => []) ⟨5, 0⟩ "News" [feedA]
      [] 5).2 (by decide)⟩

/-- C1: evaluation of the selection loop at the failing input.  With
`max_articles = 0` and the ranked pool
`[A@10, B@5, A@20, A@30]` (feed A priority 1, feed B priority 2), the
code selects three articles — the per-feed cap of 2 is enforced, but the
total bound `max_articles = 0` is not, because
`len(selected_articles) == max_articles` is checked only after an
article has been appended and therefore never fires. -/
theorem max_articles_zero_eval :
    selected_articles
        [mkArticle feedA 10, mkArticle feedB 5, mkArticle feedA 20,
         mkArticle feedA 30] 0 =
      [mkArticle feedA 10, mkArticle feedA 20, mkArticle feedB 5] ∧
    (selected_articles
        [mkArticle feedA 10, mkArticle feedB 5, mkArticle feedA 20,
         mkArticle feedA 30] 0).length = 3 := by
  decide

/-- When no requested target's rate is 0, the currency loop appends
exactly one item per target, in order, from any starting block list. -/
theorem currency_foldlM_eq :
    ∀ (base : String) (rates : List (String × Rat)) (targets : List String),
    (∀ t ∈ targets, rates.lookup (strLower t) ≠ some 0) →
    ∃ items : List CurrencyBlock,
      targets.mapM (currencyItem base rates) = Except.ok items ∧
      (∀ init : List CurrencyBlock,
        targets.foldlM (currencyStep (strLower base) rates) init =
          Except.ok (init ++ items)) ∧
      items.length = targets.length := by
  intro base rates targets
  induction targets with
  | nil => intro h; exact ⟨[], rfl, fun init => by rw [List.append_nil]; rfl, rfl⟩
  | cons t ts ih =>
    intro h
    have ht := h t (List.mem_cons_self ..)
    obtain ⟨items, h1, h2, h3⟩ :=
      ih fun x hx => h x (List.mem_cons_of_mem _ hx)
    cases hl : rates.lookup (strLower t) with
    | none =>
      have hitem : currencyItem base rates t =
          Except.ok (CurrencyBlock.notAvailable (strLower t)) := by
        simp [currencyItem, hl]
      refine ⟨CurrencyBlock.notAvailable (strLower t) :: items, ?_, ?_,
        by simp [h3]⟩
      · rw [List.mapM_cons, hitem, h1]
        rfl
      · intro init
        have hstep : currencyStep (strLower base) rates init t =
            Except.ok (init ++ [CurrencyBlock.notAvailable (strLower t)]) := by
          simp [currencyStep, hl]
        rw [List.foldlM_cons, hstep]
        show List.foldlM (currencyStep (strLower base) rates)
          (init ++ [CurrencyBlock.notAvailable (strLower t)]) ts = _
        rw [h2, List.append_assoc]
        rfl
    | some r =>
      have hr : r ≠ 0 := by rintro rfl; exact ht hl
      have hitem : currencyItem base rates t =
          Except.ok (CurrencyBlock.rateItem (strLower t) (1 / r)
            (strLower base)) := by
        simp [currencyItem, hl, hr]
      refine ⟨CurrencyBlock.rateItem (strLower t) (1 / r) (strLower base) ::
        items, ?_, ?_, by simp [h3]⟩
      · rw [List.mapM_cons, hitem, h1]
        rfl
      · intro init
        have hstep : currencyStep (strLower base) rates init t =
            Except.ok (init ++ [CurrencyBlock.rateItem (strLower t) (1 / r)
              (strLower base)]) := by
          simp [currencyStep, hl, hr]
        rw [List.foldlM_cons, hstep]
        show List.foldlM (currencyStep (strLower base) rates)
          (init ++ [CurrencyBlock.rateItem (strLower t) (1 / r)
            (strLower base)]) ts = _
        rw [h2, List.append_assoc]
        rfl

/-- C10 counterexample: a requested target whose fetched rate is 0 makes
`get_currency_rates` raise `ZeroDivisionError` (here `Except.error ()`)
instead of returning `1 + len(targets)` blocks. -/
theorem currency_zero_rate_counterexample :
    get_currency_rates "Cur" "RUB" ["usd"] [("usd", (0 : Rat))] =
      Except.error () := by
  rfl

/-- C10 amended: whenever no requested target's fetched rate is 0,
`get_currency_rates` returns normally with exactly `1 + len(targets)`
blocks — one heading followed by one bulleted item per target, in the
targets' input order (`currencyItem`, which also succeeds on each
target) — and a target missing from the rate table yields the
"Rate for X not available" item in its position rather than an error; a
requested target with rate 0, however, raises `ZeroDivisionError` from
`1 / rates[target]`. -/
theorem currency_blocks_shape :
    ∀ (text base : String) (targets : List String)
      (rates : List (String × Rat)),
    (∀ t ∈ targets, rates.lookup (strLower t) ≠ some 0) →
    ∃ items : List CurrencyBlock,
      targets.mapM (currencyItem base rates) = Except.ok items ∧
      get_currency_rates text base targets rates =
        Except.ok (CurrencyBlock.heading text :: items) ∧
      (CurrencyBlock.heading text :: items).length = 1 + targets.length := by
  intro text base targets rates h
  obtain ⟨items, h1, h2, h3⟩ := currency_foldlM_eq base rates targets h
  refine ⟨items, h1, ?_, by simp [h3, Nat.add_comm]⟩
  rw [get_currency_rates, h2 [CurrencyBlock.heading text]]
  rfl

/-- Witness for `currency_blocks_shape`: one available and one missing
target against the table `{"usd": 2}`. -/
theorem currency_blocks_shape_witness :
    ∃ items : List CurrencyBlock,
      ["usd", "XYZ"].mapM (currencyItem "RUB" [("usd", (2 : Rat))]) =
        Except.ok items ∧
      get_currency_rates "Cur" "RUB" ["usd", "XYZ"] [("usd", (2 : Rat))] =
        Except.ok (CurrencyBlock.heading "Cur" :: items) ∧
      (CurrencyBlock.heading "Cur" :: items).length =
        1 + (["usd", "XYZ"] : List String).length :=
  currency_blocks_shape "Cur" "RUB" ["usd", "XYZ"] [("usd", (2 : Rat))]
    (by intro t ht; fin_cases ht <;> simp <;> intro h <;> cases h)

end Startpage
